import Mathlib

/-!
Verification of the Wingman / MADS real-time meeting-assistant frontend
(src/static/app.js, the audio-worklet processor quoted in src/README.md, and
the pre-call page).  Each section embeds one piece of the client code as an
executable Lean definition and proves the properties claimed about it.
-/

namespace Wingman

/-! ## Audio packet framing (src/static/app.js, sendAudioPacket) -/

/-- Source-id byte for the microphone stream (app.js line 16). -/
def SOURCE_MIC : ℕ := 0x01

/-- Source-id byte for the system-audio stream (app.js line 17). -/
def SOURCE_SPEAKER : ℕ := 0x02

/-- Embedding of sendAudioPacket (app.js lines 238-246): a Uint8Array of
length 1 + pcm.length whose byte 0 is the source id and whose remaining
bytes are the PCM bytes.  Uint8Array stores each value mod 256. -/
def sendAudioPacket (sourceId : ℕ) (pcm : List ℕ) : List ℕ :=
  (sourceId % 256) :: pcm.map (· % 256)

/-! ## Float-to-Int16 PCM conversion (audio worklet, quoted in src/README.md
lines 174-185).  Sample arithmetic is modelled over ℚ; the values involved
(clamping bounds, the scale factors 0x8001 and 0x7fff, and products with
full-scale samples) are all exactly representable in Float32, so the
rational model agrees with the JS Float arithmetic on them. -/

/-- JavaScript ToIntegerOrInfinity truncation (toward zero) of a rational. -/
def jsTrunc (x : ℚ) : ℤ :=
  if x < 0 then ⌈x⌉ else ⌊x⌋

/-- JavaScript ToInt16 conversion applied when a number is stored into an
Int16Array: truncate, reduce mod 2^16, reinterpret as signed. -/
def toInt16 (i : ℤ) : ℤ :=
  (i + 32768) % 65536 - 32768

/-- Embedding of _floatTo16BitPCM: clamp each sample to [-1, 1], then
multiply by 0x8001 = 32769 when negative and 0x7fff = 32767 otherwise,
and store the result into an Int16Array slot. -/
def floatTo16BitPCM (samples : List ℚ) : List ℤ :=
  samples.map (fun x =>
    let s := max (-1) (min 1 x)
    toInt16 (jsTrunc (if s < 0 then s * 32769 else s * 32767)))

/-! ## Discussion tracker rendering (app.js lines 1664-1711) -/

/-- One discussion point as carried in a discussion_tracker_update message
and as rendered: text, status string, optional note. -/
structure TrackerPoint where
  text : String
  status : String
  note : String
deriving DecidableEq

/-- One discussion_tracker_update message: a list of points and a nudge. -/
structure TrackerMsg where
  points : List TrackerPoint
  nudge : String
deriving DecidableEq

/-- Embedding of handleDiscussionTrackerUpdate (lines 1699-1711) composed
with renderDiscussionTracker (lines 1664-1697): when the message carries a
non-empty points list the handler rewrites trackerItemsContainer.innerHTML
from that list wholesale (each item rendered with the class and icon of the
status string the message carries); an empty list leaves the display
untouched.  The state is the list of rendered points. -/
def handleDiscussionTrackerUpdate (st : List TrackerPoint) (msg : TrackerMsg) :
    List TrackerPoint :=
  if msg.points.isEmpty then st else msg.points

/-- Processing a sequence of discussion_tracker_update messages. -/
def trackerRun (st : List TrackerPoint) (msgs : List TrackerMsg) :
    List TrackerPoint :=
  msgs.foldl handleDiscussionTrackerUpdate st

/-- The status the display shows for the point with the given text. -/
def displayedStatus (st : List TrackerPoint) (t : String) : Option String :=
  (st.find? (fun p => p.text == t)).map (fun p => p.status)

/-! ## Summary-timeout bookkeeping (app.js lines 810-819 and 1398-1430) -/

/-- Events touching the waitingForSummary / summaryTimeout state:
stopClick is stopListening pressed with the WebSocket open, summaryMsg is
a post_call_summary message reaching handlePostCallSummary, timerFire is
the 30-second setTimeout callback running (setTimeout runs the callback at
most once, and only if clearTimeout has not cancelled it — expressed here
by timerFire being a no-op once the timer is disarmed), wsClose is the
WebSocket onclose handler running while the page waits. -/
inductive SumEvent
  | stopClick
  | summaryMsg
  | timerFire
  | wsClose
deriving DecidableEq

/-- The summary-wait state: the waitingForSummary flag, whether the armed
summaryTimeout is still pending, and how many times the timeout error
message has been written to the modal. -/
structure SumState where
  waitingForSummary : Bool
  timerArmed : Bool
  timeoutErrors : ℕ
deriving DecidableEq

/-- The setTimeout delay used for the summary safety timeout
(app.js line 1424). -/
def SUMMARY_TIMEOUT_MS : ℕ := 30000

def sumInit : SumState :=
  { waitingForSummary := false, timerArmed := false, timeoutErrors := 0 }

/-- Embedding of the summary-wait transitions: stopListening (open-socket
branch) sets waitingForSummary and arms the 30 s timeout;
handlePostCallSummary clears waitingForSummary and cancels the timeout
(clearTimeout); the timeout callback, when it runs, reports the timeout
error only if waitingForSummary is still set, and clears the flag; onclose
clears waitingForSummary (showing a connection-lost message instead, which
is not a timeout error). -/
def sumStep (st : SumState) (ev : SumEvent) : SumState :=
  match ev with
  | .stopClick =>
      { waitingForSummary := true, timerArmed := true,
        timeoutErrors := st.timeoutErrors }
  | .summaryMsg =>
      { waitingForSummary := false, timerArmed := false,
        timeoutErrors := st.timeoutErrors }
  | .timerFire =>
      if st.timerArmed then
        if st.waitingForSummary then
          { waitingForSummary := false, timerArmed := false,
            timeoutErrors := st.timeoutErrors + 1 }
        else
          { st with timerArmed := false }
      else st
  | .wsClose => { st with waitingForSummary := false }

def sumRun (st : SumState) (evs : List SumEvent) : SumState :=
  evs.foldl sumStep st

/-! ## WebSocket send ordering (app.js lines 238-246 and 300-347) -/

/-- Messages the client can send on the /ws/audio socket: the config
control message built in the onopen handler, a binary audio frame, or any
other JSON control message (ping, client_context, coaching_mode, ...). -/
inductive WireMsg
  | config (sampleRate : ℕ) (sources : List String) (mode : String)
  | binary (sourceId : ℕ) (pcm : List ℕ)
  | control (t : String)
deriving DecidableEq

/-- Events driving the socket: the onopen callback firing, an audio chunk
arriving from a worklet (sendAudioPacket), and any later control-message
send (all of which happen only once the socket is open). -/
inductive WsEvent
  | sockOpen
  | audioChunk (sourceId : ℕ) (pcm : List ℕ)
  | controlSend (t : String)
deriving DecidableEq

def WsEvent.isSockOpen : WsEvent → Bool
  | .sockOpen => true
  | _ => false

/-- Socket state: whether readyState is OPEN, and the ordered list of
messages sent so far. -/
structure WsState where
  isOpen : Bool
  sent : List WireMsg
deriving DecidableEq

def wsInit : WsState := { isOpen := false, sent := [] }

/-- Embedding of the send paths: the onopen handler (lines 308-318) sends
the config message as its first action; sendAudioPacket (lines 238-246)
returns without sending unless readyState is OPEN; every other send in the
client is likewise guarded by, or sequenced after, the open state. -/
def wsStep (sampleRate : ℕ) (sources : List String) (mode : String)
    (st : WsState) (ev : WsEvent) : WsState :=
  match ev with
  | .sockOpen =>
      { isOpen := true,
        sent := st.sent ++ [WireMsg.config sampleRate sources mode] }
  | .audioChunk sourceId pcm =>
      if st.isOpen then { st with sent := st.sent ++ [WireMsg.binary sourceId pcm] }
      else st
  | .controlSend t =>
      if st.isOpen then { st with sent := st.sent ++ [WireMsg.control t] }
      else st

def wsRun (sampleRate : ℕ) (sources : List String) (mode : String)
    (st : WsState) (tr : List WsEvent) : WsState :=
  tr.foldl (wsStep sampleRate sources mode) st

/-! ## Accumulated client profile (app.js lines 92-101 and 589-641) -/

/-- The eight per-session profile categories (app.js lines 92-101). -/
inductive ProfileKey
  | family
  | life_events
  | interests
  | career
  | key_concerns
  | referral_opportunities
  | ms_product_signals
  | document_triggers
deriving DecidableEq

/-- One intelligence_update message, restricted to the fields the handler
reads for profile accumulation.  An absent array field and an empty one are
indistinguishable to the accumulation loop except for key_concerns, whose
mere presence (even as an empty array, which is truthy in JavaScript)
satisfies the hasIntel guard — so it is modelled as an Option.  sentiment
is truthy exactly when it is a non-empty string. -/
structure IntelMsg where
  family : List String
  life_events : List String
  interests : List String
  career : List String
  key_concerns : Option (List String)
  referral_opportunities : List String
  ms_product_signals : List String
  document_triggers : List String
  sentiment : String
deriving DecidableEq

/-- The item list a message delivers for a category (the profileKeys loop,
lines 630-636). -/
def IntelMsg.items (m : IntelMsg) : ProfileKey → List String
  | .family => m.family
  | .life_events => m.life_events
  | .interests => m.interests
  | .career => m.career
  | .key_concerns => m.key_concerns.getD []
  | .referral_opportunities => m.referral_opportunities
  | .ms_product_signals => m.ms_product_signals
  | .document_triggers => m.document_triggers

/-- The accumulatedProfile object: one Set of strings per category. -/
def Profile := ProfileKey → Finset String

def profileInit : Profile := fun _ => ∅

/-- The hasProfile flag (line 599): one of family, life_events, interests,
career is a non-empty array.  Note it inspects only these four keys. -/
def hasProfileData (m : IntelMsg) : Bool :=
  !m.family.isEmpty || !m.life_events.isEmpty ||
    !m.interests.isEmpty || !m.career.isEmpty

/-- The hasIntel flag (line 600): data.sentiment || data.key_concerns,
under JavaScript truthiness. -/
def hasIntelData (m : IntelMsg) : Bool :=
  !(m.sentiment == "") || m.key_concerns.isSome

/-- Embedding of handleIntelligenceUpdate restricted to its effect on
accumulatedProfile: the early return when !hasProfile && !hasIntel
(lines 599-604), then items.forEach(item => accumulatedProfile[key].add(item))
for each of the eight keys (adding an absent or empty list is a no-op,
i.e. a union with the empty set). -/
def handleIntelligenceUpdate (p : Profile) (m : IntelMsg) : Profile :=
  if !hasProfileData m && !hasIntelData m then p
  else fun k => p k ∪ (m.items k).toFinset

def intelRun (p : Profile) (msgs : List IntelMsg) : Profile :=
  msgs.foldl handleIntelligenceUpdate p

/-- Modelled from the spec words (the claim side of the comparison): the
profile a category would hold if every delivered update were unioned in,
with no guard — per-session sets built by unioning every generative
update. -/
def specUnionProfile (msgs : List IntelMsg) : Profile :=
  fun k => msgs.foldr (fun m acc => (m.items k).toFinset ∪ acc) ∅

/-- The union of the items delivered for a category by the messages that
pass the handler guard (the amended claim). -/
def guardedUnionProfile (msgs : List IntelMsg) : Profile :=
  fun k =>
    (msgs.filter (fun m => !(!hasProfileData m && !hasIntelData m))).foldr
      (fun m acc => (m.items k).toFinset ∪ acc) ∅

/-! ## To-do accumulation (app.js lines 84-85 and 790-804) -/

/-- knownTodoItems (a Set of item texts) together with accumulatedTodoItems
(the push-ordered records; the time field of each record is presentation
metadata and is omitted, leaving the list of item texts). -/
structure TodoState where
  known : Finset String
  accumulated : List String
deriving DecidableEq

def todoInit : TodoState := { known := ∅, accumulated := [] }

/-- Embedding of handleTodoUpdate (lines 790-804): on a non-empty items
array, newItems is computed once by filtering against knownTodoItems, and
then every element of newItems is added to the set and pushed onto the
accumulated list. -/
def handleTodoUpdate (st : TodoState) (items : List String) : TodoState :=
  if items.isEmpty then st
  else if (items.filter (fun i => i ∉ st.known)).isEmpty then st
  else
    { known := (items.filter (fun i => i ∉ st.known)).foldl
        (fun s i => insert i s) st.known,
      accumulated := st.accumulated ++ items.filter (fun i => i ∉ st.known) }

def todoRun (st : TodoState) (msgs : List (List String)) : TodoState :=
  msgs.foldl handleTodoUpdate st

/-! ## Audio-capture startup (app.js lines 145-236) -/

/-- The environment startAudioCapture runs against: the two checkboxes,
whether getUserMedia succeeds, and the outcome of getDisplayMedia —
none models a throw (user cancelled the share dialog or capture is
unsupported), some n a granted stream with n audio tracks. -/
structure CaptureEnv where
  isSimulation : Bool
  systemAudioChecked : Bool
  micOk : Bool
  displayMedia : Option ℕ
deriving DecidableEq

/-- What startAudioCapture leaves behind on success: the sources list it
returns, the hasSpeakerAudio flag, which worklets were wired up, and the
returned mode string. -/
structure CaptureResult where
  sources : List String
  hasSpeakerAudio : Bool
  micWorkletActive : Bool
  speakerWorkletActive : Bool
  mode : String
deriving DecidableEq

/-- Embedding of startAudioCapture: mic capture first (skipped in
simulation; a getUserMedia failure escapes as an error), then the guarded
getDisplayMedia attempt whose failure or lack of an audio track is caught
and leaves speakerStream null, the simulation-requires-audio check, and
the worklet wiring. -/
def startAudioCapture (env : CaptureEnv) : Except String CaptureResult :=
  if !env.isSimulation && !env.micOk then
    Except.error "getUserMedia failed"
  else
    let sources0 := if env.isSimulation then [] else ["mic"]
    let tried := env.isSimulation || env.systemAudioChecked
    let gotSpeaker := tried &&
      (match env.displayMedia with
        | some n => decide (0 < n)
        | none => false)
    if env.isSimulation && !gotSpeaker then
      Except.error "Simulation mode requires system audio"
    else
      Except.ok
        { sources := sources0 ++ (if gotSpeaker then ["speaker"] else []),
          hasSpeakerAudio := gotSpeaker,
          micWorkletActive := !env.isSimulation,
          speakerWorkletActive := gotSpeaker,
          mode := if env.isSimulation then "simulation" else "live" }

/-- The successful mic-only outcome of startAudioCapture in live mode. -/
def micOnlyResult : CaptureResult :=
  { sources := ["mic"], hasSpeakerAudio := false, micWorkletActive := true,
    speakerWorkletActive := false, mode := "live" }

/-- Embedding of updateSourceIndicators (lines 261-271): the class names
given to the mic and speaker indicators. -/
def updateSourceIndicators (isListening hasSpeakerAudio : Bool) :
    String × String :=
  if isListening then
    ("source-indicator active",
      if hasSpeakerAudio then "source-indicator active"
      else "source-indicator inactive")
  else
    ("source-indicator inactive", "source-indicator inactive")

/-- The parts of the running-session state the speaker-track onended
handler can touch. -/
structure LiveSessionState where
  micWorkletActive : Bool
  hasSpeakerAudio : Bool
  isListening : Bool
  sessionError : Option String
deriving DecidableEq

/-- Embedding of the onended handler installed on the system-audio track
(lines 180-184): it clears hasSpeakerAudio, refreshes the indicators and
logs at info level; nothing else changes and no error is raised. -/
def onSpeakerTrackEnded (st : LiveSessionState) : LiveSessionState :=
  { st with hasSpeakerAudio := false }

/-! ## Transcript rendering (app.js lines 36-37 and 432-490) -/

/-- One DOM line inside the transcript container.  id models DOM node
identity: interimElements[speaker] stores a node reference, and removal
and in-place text update act on that very node, modelled by giving every
created line a fresh id.  isFinal distinguishes a committed final line
from an interim line. -/
structure TNode where
  id : ℕ
  isFinal : Bool
  speaker : String
  text : String
deriving DecidableEq

/-- One transcript event as delivered by the server. -/
structure TEvent where
  speaker : String
  text : String
  is_final : Bool
deriving DecidableEq

/-- The transcript UI state: the ordered children of the transcript
container, the interimElements map from speaker to node reference, and a
fresh-id counter. -/
structure TState where
  container : List TNode
  interimOf : String → Option ℕ
  nextId : ℕ

def transcriptInit : TState :=
  { container := [], interimOf := fun _ => none, nextId := 0 }

/-- Embedding of handleTranscript (lines 432-490).  A final event removes
the speaker's interim element if one exists (node removal by identity),
deletes the map entry, and appends a fresh final line.  A partial event
creates and appends an interim line when the speaker has none, otherwise
it rewrites the text of the existing interim node in place. -/
def handleTranscript (st : TState) (ev : TEvent) : TState :=
  if ev.is_final then
    match st.interimOf ev.speaker with
    | some nid =>
        { container := (st.container.filter (fun n => n.id ≠ nid)) ++
            [{ id := st.nextId, isFinal := true,
               speaker := ev.speaker, text := ev.text }],
          interimOf := fun sp => if sp = ev.speaker then none
            else st.interimOf sp,
          nextId := st.nextId + 1 }
    | none =>
        { container := st.container ++
            [{ id := st.nextId, isFinal := true,
               speaker := ev.speaker, text := ev.text }],
          interimOf := st.interimOf,
          nextId := st.nextId + 1 }
  else
    match st.interimOf ev.speaker with
    | some nid =>
        { container := st.container.map
            (fun n => if n.id = nid then { n with text := ev.text } else n),
          interimOf := st.interimOf,
          nextId := st.nextId }
    | none =>
        { container := st.container ++
            [{ id := st.nextId, isFinal := false,
               speaker := ev.speaker, text := ev.text }],
          interimOf := fun sp => if sp = ev.speaker then some st.nextId
            else st.interimOf sp,
          nextId := st.nextId + 1 }

def transcriptRun (st : TState) (evts : List TEvent) : TState :=
  evts.foldl handleTranscript st

/-- The committed final lines on display, in container order, with their
speaker labels. -/
def finalLines (st : TState) : List (String × String) :=
  (st.container.filter (fun n => n.isFinal)).map (fun n => (n.speaker, n.text))

/-- The final lines a sequence of events commits, in arrival order. -/
def committedLines (evts : List TEvent) : List (String × String) :=
  evts.filterMap (fun e => if e.is_final then some (e.speaker, e.text) else none)

/-- How many interim lines for a speaker the container holds. -/
def interimCount (st : TState) (sp : String) : ℕ :=
  st.container.countP (fun n => !n.isFinal && n.speaker == sp)

/-- The identity skeleton of the display: id, kind and speaker label of
every line in order — everything except the mutable interim text. -/
def lineSkeleton (st : TState) : List (ℕ × Bool × String) :=
  st.container.map (fun n => (n.id, n.isFinal, n.speaker))

/-- The texts of the interim lines for a speaker, in container order. -/
def interimTexts (st : TState) (sp : String) : List String :=
  (st.container.filter (fun n => !n.isFinal && n.speaker == sp)).map
    (fun n => n.text)

/-- The well-formedness invariant tying the interimElements map to the
container: node ids are distinct and below the fresh counter, every map
entry points at an interim node of that speaker present in the container,
and every interim node in the container is registered in the map. -/
def TInv (st : TState) : Prop :=
  (st.container.map (fun n => n.id)).Nodup ∧
  (∀ n ∈ st.container, n.id < st.nextId) ∧
  (∀ sp nid, st.interimOf sp = some nid →
    ∃ n ∈ st.container, n.id = nid ∧ n.isFinal = false ∧ n.speaker = sp) ∧
  (∀ n ∈ st.container, n.isFinal = false → st.interimOf n.speaker = some n.id)

/-! ## Concrete inputs referenced by the theorems -/

/-- First message of a two-message tracker sequence: point A discussed. -/
def c4msg1 : TrackerMsg :=
  { points := [{ text := "A", status := "discussed", note := "" }], nudge := "" }

/-- Second message: the backend suggests the backward status pending for A. -/
def c4msg2 : TrackerMsg :=
  { points := [{ text := "A", status := "pending", note := "" }], nudge := "" }

/-- An intelligence_update carrying only a referral opportunity: the four
profile keys the guard inspects are empty, sentiment is absent and the
key_concerns field is missing. -/
def c8msg : IntelMsg :=
  { family := [], life_events := [], interests := [], career := [],
    key_concerns := none, referral_opportunities := ["golf with client"],
    ms_product_signals := [], document_triggers := [], sentiment := "" }

/-- A live-mode environment in which the user cancelled the screen-share
dialog. -/
def c9env : CaptureEnv :=
  { isSimulation := false, systemAudioChecked := true, micOk := true,
    displayMedia := none }

/-! ## Theorems -/

theorem map_mod_256_of_lt (l : List ℕ) (hb : ∀ b ∈ l, b < 256) :
    l.map (· % 256) = l := by
  induction l with
  | nil => rfl
  | cons a t ih =>
    simp only [List.map_cons, List.cons.injEq]
    exact ⟨Nat.mod_eq_of_lt (hb a (by simp)),
      ih (fun b hbmem => hb b (by simp [hbmem]))⟩

/-- Claim C1: for every PCM buffer and source id in \x7b0x01, 0x02\x7d, the packet
built by sendAudioPacket has length 1 + payload length, its first byte is
the source id, its remaining bytes are the PCM bytes unchanged, and the
first byte is never outside \x7b0x01, 0x02\x7d. -/
theorem c1_audio_packet_framing (sourceId : ℕ) (pcm : List ℕ)
    (hs : sourceId = SOURCE_MIC ∨ sourceId = SOURCE_SPEAKER)
    (hb : ∀ b ∈ pcm, b < 256) :
    (sendAudioPacket sourceId pcm).length = 1 + pcm.length ∧
    (sendAudioPacket sourceId pcm).head? = some sourceId ∧
    (sendAudioPacket sourceId pcm).tail = pcm ∧
    ((sendAudioPacket sourceId pcm).head? = some SOURCE_MIC ∨
      (sendAudioPacket sourceId pcm).head? = some SOURCE_SPEAKER) := by
  have hlt : sourceId < 256 := by
    rcases hs with h | h <;> simp [h, SOURCE_MIC, SOURCE_SPEAKER]
  have hmod : sourceId % 256 = sourceId := Nat.mod_eq_of_lt hlt
  refine ⟨?_, ?_, ?_, ?_⟩
  · simp [sendAudioPacket, Nat.add_comm]
  · simp [sendAudioPacket, hmod]
  · simp [sendAudioPacket, map_mod_256_of_lt pcm hb]
  · rcases hs with h | h
    · exact Or.inl (by simp [sendAudioPacket, h, SOURCE_MIC, SOURCE_SPEAKER])
    · exact Or.inr (by simp [sendAudioPacket, h, SOURCE_MIC, SOURCE_SPEAKER])

/-- Witness for C1 at sourceId = 0x01 and pcm = [7, 255]. -/
theorem c1_audio_packet_framing_witness :
    (sendAudioPacket SOURCE_MIC [7, 255]).length = 1 + 2 ∧
    (sendAudioPacket SOURCE_MIC [7, 255]).head? = some SOURCE_MIC ∧
    (sendAudioPacket SOURCE_MIC [7, 255]).tail = [7, 255] ∧
    ((sendAudioPacket SOURCE_MIC [7, 255]).head? = some SOURCE_MIC ∨
      (sendAudioPacket SOURCE_MIC [7, 255]).head? = some SOURCE_SPEAKER) :=
  c1_audio_packet_framing SOURCE_MIC [7, 255] (Or.inl rfl)
    (by intro b hbmem; fin_cases hbmem <;> norm_num)

/-- Claim C7: evaluating the conversion at the failing input: a full-scale
negative sample -1.0 is clamped to -1, scaled by 0x8001 = 32769 to -32769,
and wraps in the Int16Array to +32767 — not the -32768 the claim (and the
doc comment of _floatTo16BitPCM) states. -/
theorem c7_full_scale_negative_wraps :
    floatTo16BitPCM [(-1 : ℚ)] = [32767] := by
  have hmin : min (1 : ℚ) (-1) = -1 := by norm_num
  have hmax : max (-1 : ℚ) (-1) = -1 := by norm_num
  have hneg : ((-1 : ℚ) < 0) := by norm_num
  simp only [floatTo16BitPCM, List.map_cons, List.map_nil, hmin, hmax]
  rw [if_pos hneg]
  have hprod : ((-1 : ℚ) * 32769) = ((-32769 : ℤ) : ℚ) := by norm_num
  have htr : jsTrunc ((-1 : ℚ) * 32769) = -32769 := by
    rw [hprod, jsTrunc, if_pos (by norm_num)]
    exact Int.ceil_intCast _
  rw [htr]
  simp [toInt16]

/-- Claim C4 counterexample: after a message displaying point A as discussed, a
later discussion_tracker_update carrying the backward status pending is
rendered as pending — the client applies no monotonicity clamp. -/
theorem c4_backward_status_is_displayed :
    displayedStatus (trackerRun [] [c4msg1]) "A" = some "discussed" ∧
    displayedStatus (trackerRun [] [c4msg1, c4msg2]) "A" = some "pending" ∧
    ("pending" : String) ≠ "discussed" := by
  refine ⟨rfl, rfl, by decide⟩

/-- Claim C4 amended: the tracker display always equals exactly the point list of
the most recent discussion_tracker_update with a non-empty points list,
statuses taken verbatim from that message (messages with an empty list are
ignored); the client itself never clamps a backward status. -/
theorem c4_display_equals_latest_update (init : List TrackerPoint)
    (msgs : List TrackerMsg) (m : TrackerMsg) :
    trackerRun init (msgs ++ [m]) =
      if m.points.isEmpty then trackerRun init msgs else m.points := by
  simp [trackerRun, List.foldl_append, handleDiscussionTrackerUpdate]

theorem sumRun_no_stop_disarmed (evs : List SumEvent) :
    ∀ st : SumState, SumEvent.stopClick ∉ evs → st.timerArmed = false →
      (sumRun st evs).timeoutErrors = st.timeoutErrors ∧
      (sumRun st evs).timerArmed = false := by
  induction evs with
  | nil => intro st _ hA; exact ⟨rfl, hA⟩
  | cons e t ih =>
    intro st hmem hA
    have ht : SumEvent.stopClick ∉ t := fun hc => hmem (List.mem_cons_of_mem _ hc)
    have hrun : sumRun st (e :: t) = sumRun (sumStep st e) t := by
      simp [sumRun]
    rw [hrun]
    cases e with
    | stopClick => exact absurd (List.mem_cons_self _ _) hmem
    | summaryMsg =>
        have h2 := ih (sumStep st SumEvent.summaryMsg) ht (by simp [sumStep])
        simpa [sumStep] using h2
    | timerFire =>
        have hstep : sumStep st SumEvent.timerFire = st := by
          simp [sumStep, hA]
        rw [hstep]
        exact ih st ht hA
    | wsClose =>
        have h2 := ih (sumStep st SumEvent.wsClose) ht (by simp [sumStep, hA])
        simpa [sumStep] using h2

/-- Claim C5: the summary wait is bounded by the 30000 ms safety timeout; when no
post_call_summary arrives before the timeout callback runs, exactly one
timeout failure is reported and waitingForSummary is cleared; when the
summary does arrive first, handlePostCallSummary cancels the timer, so no
later event (short of starting a new session with another stop click) can
ever produce a timeout error. -/
theorem c5_summary_timeout (evs : List SumEvent)
    (h : SumEvent.stopClick ∉ evs) :
    SUMMARY_TIMEOUT_MS = 30000 ∧
    (sumRun sumInit [SumEvent.stopClick, SumEvent.timerFire]).timeoutErrors = 1 ∧
    (sumRun sumInit [SumEvent.stopClick, SumEvent.timerFire]).waitingForSummary
      = false ∧
    (sumRun sumInit ([SumEvent.stopClick, SumEvent.summaryMsg] ++ evs)).timeoutErrors
      = 0 := by
  refine ⟨rfl, rfl, rfl, ?_⟩
  have hbase :
      sumRun sumInit [SumEvent.stopClick, SumEvent.summaryMsg] =
        { waitingForSummary := false, timerArmed := false, timeoutErrors := 0 } := rfl
  have hsplit :
      sumRun sumInit ([SumEvent.stopClick, SumEvent.summaryMsg] ++ evs) =
        sumRun (sumRun sumInit [SumEvent.stopClick, SumEvent.summaryMsg]) evs := by
    simp [sumRun, List.foldl_append]
  rw [hsplit, hbase]
  exact (sumRun_no_stop_disarmed evs _ h rfl).1

/-- Witness for C5 at a concrete post-summary event sequence containing a
redundant timer fire, a socket close and a duplicate summary message. -/
theorem c5_summary_timeout_witness :
    SUMMARY_TIMEOUT_MS = 30000 ∧
    (sumRun sumInit [SumEvent.stopClick, SumEvent.timerFire]).timeoutErrors = 1 ∧
    (sumRun sumInit [SumEvent.stopClick, SumEvent.timerFire]).waitingForSummary
      = false ∧
    (sumRun sumInit ([SumEvent.stopClick, SumEvent.summaryMsg] ++
      [SumEvent.timerFire, SumEvent.wsClose, SumEvent.summaryMsg,
        SumEvent.timerFire])).timeoutErrors = 0 :=
  c5_summary_timeout
    [SumEvent.timerFire, SumEvent.wsClose, SumEvent.summaryMsg, SumEvent.timerFire]
    (by decide)

theorem wsRun_first_sent_config (sr : ℕ) (srcs : List String) (md : String)
    (tr : List WsEvent) :
    ∀ st : WsState,
      ((st.sent = [] ∧ st.isOpen = false) ∨
        st.sent.head? = some (WireMsg.config sr srcs md)) →
      (((wsRun sr srcs md st tr).sent = [] ∧
          (wsRun sr srcs md st tr).isOpen = false) ∨
        (wsRun sr srcs md st tr).sent.head? = some (WireMsg.config sr srcs md)) := by
  induction tr with
  | nil => intro st h; exact h
  | cons e t ih =>
    intro st h
    have hrun : wsRun sr srcs md st (e :: t) =
        wsRun sr srcs md (wsStep sr srcs md st e) t := by
      simp [wsRun]
    rw [hrun]
    apply ih
    have hkeep : ∀ m : WireMsg,
        st.sent.head? = some (WireMsg.config sr srcs md) →
        (st.sent ++ [m]).head? = some (WireMsg.config sr srcs md) := by
      intro m hh
      rw [List.head?_append, hh]
      rfl
    cases e with
    | sockOpen =>
        right
        rcases h with ⟨hnil, _⟩ | hh
        · show (st.sent ++ [WireMsg.config sr srcs md]).head? = _
          rw [hnil]
          rfl
        · exact hkeep _ hh
    | audioChunk sourceId pcm =>
        cases ho : st.isOpen with
        | false =>
            have hstep : wsStep sr srcs md st (WsEvent.audioChunk sourceId pcm)
                = st := by
              simp [wsStep, ho]
            rw [hstep]; exact h
        | true =>
            rcases h with ⟨_, hcl⟩ | hh
            · rw [ho] at hcl; simp at hcl
            · right
              have hstep :
                  (wsStep sr srcs md st (WsEvent.audioChunk sourceId pcm)).sent
                    = st.sent ++ [WireMsg.binary sourceId pcm] := by
                simp [wsStep, ho]
              rw [hstep]
              exact hkeep _ hh
    | controlSend msgT =>
        cases ho : st.isOpen with
        | false =>
            have hstep : wsStep sr srcs md st (WsEvent.controlSend msgT) = st := by
              simp [wsStep, ho]
            rw [hstep]; exact h
        | true =>
            rcases h with ⟨_, hcl⟩ | hh
            · rw [ho] at hcl; simp at hcl
            · right
              have hstep :
                  (wsStep sr srcs md st (WsEvent.controlSend msgT)).sent
                    = st.sent ++ [WireMsg.control msgT] := by
                simp [wsStep, ho]
              rw [hstep]
              exact hkeep _ hh

theorem wsRun_no_open_is_noop (sr : ℕ) (srcs : List String) (md : String)
    (tr : List WsEvent) :
    ∀ st : WsState, (∀ e ∈ tr, e.isSockOpen = false) → st.isOpen = false →
      wsRun sr srcs md st tr = st := by
  induction tr with
  | nil => intro st _ _; rfl
  | cons e t ih =>
    intro st hall hcl
    have hrun : wsRun sr srcs md st (e :: t) =
        wsRun sr srcs md (wsStep sr srcs md st e) t := by
      simp [wsRun]
    rw [hrun]
    have he : e.isSockOpen = false := hall e (List.mem_cons_self _ _)
    have ht : ∀ x ∈ t, x.isSockOpen = false :=
      fun x hx => hall x (List.mem_cons_of_mem _ hx)
    cases e with
    | sockOpen => simp [WsEvent.isSockOpen] at he
    | audioChunk sourceId pcm =>
        have hstep : wsStep sr srcs md st (WsEvent.audioChunk sourceId pcm) = st := by
          simp [wsStep, hcl]
        rw [hstep]; exact ih st ht hcl
    | controlSend msgT =>
        have hstep : wsStep sr srcs md st (WsEvent.controlSend msgT) = st := by
          simp [wsStep, hcl]
        rw [hstep]; exact ih st ht hcl

/-- Claim C6: on every connection the config control message is the first message
sent — after any event trace the sent list is empty or starts with the
config message, so the config message precedes every binary audio frame —
and a trace in which the socket never reaches the open state sends nothing
at all (sendAudioPacket returns without sending unless readyState is
OPEN). -/
theorem c6_config_first (sr : ℕ) (srcs : List String) (md : String)
    (tr : List WsEvent) :
    ((wsRun sr srcs md wsInit tr).sent = [] ∨
      (wsRun sr srcs md wsInit tr).sent.head? = some (WireMsg.config sr srcs md)) ∧
    (wsRun sr srcs md wsInit
        (tr.filter (fun e => !e.isSockOpen))).sent = [] := by
  constructor
  · rcases wsRun_first_sent_config sr srcs md tr wsInit
        (Or.inl ⟨rfl, rfl⟩) with ⟨hnil, _⟩ | hh
    · exact Or.inl hnil
    · exact Or.inr hh
  · have hfilter : ∀ e ∈ tr.filter (fun e => !e.isSockOpen),
        e.isSockOpen = false := by
      intro e hmem
      have := List.of_mem_filter hmem
      simpa using this
    rw [wsRun_no_open_is_noop sr srcs md _ wsInit hfilter rfl]
    rfl

/-- Claim C8 counterexample: the guard at lines 599-604 inspects only
family/life_events/interests/career plus sentiment/key_concerns, so an
update delivering items only for referral_opportunities is dropped whole —
the accumulated profile is not the union of every delivered update. -/
theorem c8_guard_drops_referral_only_update :
    intelRun profileInit [c8msg] ProfileKey.referral_opportunities = ∅ ∧
    specUnionProfile [c8msg] ProfileKey.referral_opportunities
      = {"golf with client"} ∧
    (∅ : Finset String) ≠ {"golf with client"} := by
  refine ⟨rfl, ?_, ?_⟩
  · simp [specUnionProfile, IntelMsg.items, c8msg]
  · exact (Finset.singleton_ne_empty _).symm

theorem intelRun_eq_append_guardedUnion (msgs : List IntelMsg) :
    ∀ (p : Profile) (k : ProfileKey),
      intelRun p msgs k = p k ∪ guardedUnionProfile msgs k := by
  induction msgs with
  | nil => intro p k; simp [intelRun, guardedUnionProfile]
  | cons m rest ih =>
    intro p k
    have hrun : intelRun p (m :: rest) = intelRun (handleIntelligenceUpdate p m) rest := by
      simp [intelRun]
    rw [hrun, ih]
    cases hg : (!hasProfileData m && !hasIntelData m) with
    | true =>
        have hP : hasProfileData m = false ∧ hasIntelData m = false := by
          simpa [Bool.and_eq_true, Bool.not_eq_true'] using hg
        have h1 : handleIntelligenceUpdate p m = p := by
          simp [handleIntelligenceUpdate, hg]
        have h2 : guardedUnionProfile (m :: rest) k = guardedUnionProfile rest k := by
          simp [guardedUnionProfile, List.filter_cons, hP.1, hP.2]
        rw [h1, h2]
    | false =>
        have hQ : hasProfileData m = true ∨ hasIntelData m = true := by
          cases hp : hasProfileData m with
          | true => exact Or.inl rfl
          | false =>
            cases hq : hasIntelData m with
            | true => exact Or.inr rfl
            | false => rw [hp, hq] at hg; simp at hg
        have h1 : handleIntelligenceUpdate p m k = p k ∪ (m.items k).toFinset := by
          simp [handleIntelligenceUpdate, hg]
        have h2 : guardedUnionProfile (m :: rest) k
            = (m.items k).toFinset ∪ guardedUnionProfile rest k := by
          rcases hQ with h | h <;>
            simp [guardedUnionProfile, List.filter_cons, h]
        rw [h1, h2, Finset.union_assoc]

theorem foldr_union_init {α β : Type} [DecidableEq β] (f : α → Finset β)
    (l : List α) (s : Finset β) :
    l.foldr (fun m acc => f m ∪ acc) s
      = l.foldr (fun m acc => f m ∪ acc) ∅ ∪ s := by
  induction l with
  | nil => simp
  | cons a t ih => simp [ih, Finset.union_assoc]

theorem guardedUnionProfile_append (a b : List IntelMsg) (k : ProfileKey) :
    guardedUnionProfile (a ++ b) k
      = guardedUnionProfile a k ∪ guardedUnionProfile b k := by
  simp only [guardedUnionProfile, List.filter_append, List.foldr_append]
  rw [foldr_union_init]

/-- Claim C8 amended: for each category the accumulated profile is exactly the
union of the items delivered by the updates that pass the handler guard
(an update with one of family/life_events/interests/career non-empty, a
truthy sentiment, or a key_concerns field present); within that family of
sets duplicates collapse and re-delivering the whole message sequence a
second time leaves the profile unchanged. -/
theorem c8_profile_guarded_union (msgs : List IntelMsg) (k : ProfileKey) :
    intelRun profileInit msgs k = guardedUnionProfile msgs k ∧
    intelRun profileInit (msgs ++ msgs) k = intelRun profileInit msgs k := by
  have h1 : ∀ ms : List IntelMsg, intelRun profileInit ms k = guardedUnionProfile ms k := by
    intro ms
    rw [intelRun_eq_append_guardedUnion ms profileInit k]
    simp [profileInit]
  refine ⟨h1 msgs, ?_⟩
  rw [h1 (msgs ++ msgs), h1 msgs, guardedUnionProfile_append, Finset.union_self]

/-- Claim C10 counterexample: a single todo_update whose items array repeats a
text makes the filter pass both copies (knownTodoItems is consulted before
any element of the batch is inserted), so the same text is pushed twice —
the accumulated list is not duplicate-free. -/
theorem c10_duplicate_in_one_message :
    (todoRun todoInit [["call Sam", "call Sam"]]).accumulated
      = ["call Sam", "call Sam"] ∧
    ¬ (todoRun todoInit [["call Sam", "call Sam"]]).accumulated.Nodup := by
  refine ⟨by decide, by decide⟩

theorem foldl_insert_eq_union (l : List String) (s : Finset String) :
    l.foldl (fun acc i => insert i acc) s = s ∪ l.toFinset := by
  induction l generalizing s with
  | nil => simp
  | cons a t ih =>
    simp only [List.foldl_cons, List.toFinset_cons, ih]
    rw [Finset.insert_union, Finset.union_insert]

theorem handleTodoUpdate_invariant (st : TodoState) (items : List String)
    (hitems : items.Nodup) (hk : st.known = st.accumulated.toFinset)
    (hn : st.accumulated.Nodup) :
    (handleTodoUpdate st items).known
      = (handleTodoUpdate st items).accumulated.toFinset ∧
      (handleTodoUpdate st items).accumulated.Nodup := by
  unfold handleTodoUpdate
  split
  · exact ⟨hk, hn⟩
  · split
    · exact ⟨hk, hn⟩
    · constructor
      · simp only [foldl_insert_eq_union, List.toFinset_append, hk]
      · refine List.Nodup.append hn (hitems.filter _) ?_
        intro x hx1 hx2
        have hx2m : x ∉ st.known := by
          simpa using List.of_mem_filter hx2
        exact hx2m (by rw [hk]; exact List.mem_toFinset.mpr hx1)

theorem todoRun_invariant (msgs : List (List String)) :
    ∀ st : TodoState, (∀ msg ∈ msgs, msg.Nodup) →
      st.known = st.accumulated.toFinset → st.accumulated.Nodup →
      (todoRun st msgs).known = (todoRun st msgs).accumulated.toFinset ∧
        (todoRun st msgs).accumulated.Nodup := by
  induction msgs with
  | nil => intro st _ hk hn; exact ⟨hk, hn⟩
  | cons items rest ih =>
    intro st hall hk hn
    have hstep := handleTodoUpdate_invariant st items
      (hall items (List.mem_cons_self _ _)) hk hn
    have hrun : todoRun st (items :: rest)
        = todoRun (handleTodoUpdate st items) rest := by
      simp [todoRun]
    rw [hrun]
    exact ih _ (fun msg hm => hall msg (List.mem_cons_of_mem _ hm))
      hstep.1 hstep.2

theorem handleTodoUpdate_known_toFinset (st : TodoState) (items : List String)
    (hk : st.known = st.accumulated.toFinset) :
    (handleTodoUpdate st items).known
      = (handleTodoUpdate st items).accumulated.toFinset := by
  unfold handleTodoUpdate
  split
  · exact hk
  · split
    · exact hk
    · simp only [foldl_insert_eq_union, List.toFinset_append, hk]

theorem todoRun_known_toFinset (msgs : List (List String)) :
    ∀ st : TodoState, st.known = st.accumulated.toFinset →
      (todoRun st msgs).known = (todoRun st msgs).accumulated.toFinset := by
  induction msgs with
  | nil => intro st hk; exact hk
  | cons items rest ih =>
    intro st hk
    have hrun : todoRun st (items :: rest)
        = todoRun (handleTodoUpdate st items) rest := by
      simp [todoRun]
    rw [hrun]
    exact ih _ (handleTodoUpdate_known_toFinset st items hk)

/-- Claim C10 amended: provided each single todo_update message carries no
internal duplicate (distinct texts within one items array), the
accumulated list contains each text at most once and an item already seen
is never appended again; unconditionally — duplicate-carrying messages
included — knownTodoItems equals exactly the set of texts present in
accumulatedTodoItems. -/
theorem c10_todo_dedup (msgs : List (List String)) :
    ((∀ msg ∈ msgs, msg.Nodup) → (todoRun todoInit msgs).accumulated.Nodup) ∧
    (todoRun todoInit msgs).known
      = (todoRun todoInit msgs).accumulated.toFinset := by
  constructor
  · intro h
    exact (todoRun_invariant msgs todoInit h (by simp [todoInit])
      (by simp [todoInit])).2
  · exact todoRun_known_toFinset msgs todoInit (by simp [todoInit])

/-- Witness for C10 on two overlapping duplicate-free messages,
discharging the duplicate-free hypothesis of the first conjunct. -/
theorem c10_todo_dedup_witness :
    (todoRun todoInit [["a", "b"], ["b", "c"]]).accumulated.Nodup ∧
    (todoRun todoInit [["a", "b"], ["b", "c"]]).known
      = (todoRun todoInit [["a", "b"], ["b", "c"]]).accumulated.toFinset :=
  ⟨(c10_todo_dedup [["a", "b"], ["b", "c"]]).1 (by decide),
    (c10_todo_dedup [["a", "b"], ["b", "c"]]).2⟩

/-- Claim C9: in live mode, when getDisplayMedia throws (failure or user
cancellation) or the granted stream carries no audio track,
startAudioCapture still succeeds with the mic as the only source,
hasSpeakerAudio false and no speaker worklet, while the mic worklet is
wired; the speaker indicator is shown inactive while listening; and the
system-audio track ending mid-session only clears hasSpeakerAudio, leaving
the mic worklet and the absence of a session error untouched. -/
theorem c9_speaker_failure_degrades_gracefully (env : CaptureEnv)
    (hlive : env.isSimulation = false) (hmic : env.micOk = true)
    (hfail : env.displayMedia = none ∨ env.displayMedia = some 0) :
    startAudioCapture env = Except.ok micOnlyResult ∧
    updateSourceIndicators true false =
      ("source-indicator active", "source-indicator inactive") ∧
    (∀ st : LiveSessionState,
      (onSpeakerTrackEnded st).micWorkletActive = st.micWorkletActive ∧
      (onSpeakerTrackEnded st).hasSpeakerAudio = false ∧
      (onSpeakerTrackEnded st).sessionError = st.sessionError) := by
  refine ⟨?_, rfl, fun st => ⟨rfl, rfl, rfl⟩⟩
  rcases hfail with h | h <;>
    simp [startAudioCapture, hlive, hmic, h, micOnlyResult]

/-- Witness for C9 at the cancelled-share environment. -/
theorem c9_speaker_failure_witness :
    startAudioCapture c9env = Except.ok micOnlyResult ∧
    updateSourceIndicators true false =
      ("source-indicator active", "source-indicator inactive") ∧
    (∀ st : LiveSessionState,
      (onSpeakerTrackEnded st).micWorkletActive = st.micWorkletActive ∧
      (onSpeakerTrackEnded st).hasSpeakerAudio = false ∧
      (onSpeakerTrackEnded st).sessionError = st.sessionError) :=
  c9_speaker_failure_degrades_gracefully c9env rfl rfl (Or.inl rfl)

theorem TInv_init : TInv transcriptInit := by
  unfold TInv transcriptInit
  refine ⟨by simp, by simp, by simp, by simp⟩

theorem handleTranscript_final_some (st : TState) (ev : TEvent) (nid : ℕ)
    (hf : ev.is_final = true) (hio : st.interimOf ev.speaker = some nid) :
    handleTranscript st ev =
      { container := (st.container.filter (fun n => n.id ≠ nid)) ++
          [{ id := st.nextId, isFinal := true,
             speaker := ev.speaker, text := ev.text }],
        interimOf := fun sp => if sp = ev.speaker then none
          else st.interimOf sp,
        nextId := st.nextId + 1 } := by
  unfold handleTranscript
  rw [if_pos hf, hio]

theorem handleTranscript_final_none (st : TState) (ev : TEvent)
    (hf : ev.is_final = true) (hio : st.interimOf ev.speaker = none) :
    handleTranscript st ev =
      { container := st.container ++
          [{ id := st.nextId, isFinal := true,
             speaker := ev.speaker, text := ev.text }],
        interimOf := st.interimOf,
        nextId := st.nextId + 1 } := by
  unfold handleTranscript
  rw [if_pos hf, hio]

theorem handleTranscript_partial_some (st : TState) (ev : TEvent) (nid : ℕ)
    (hf : ev.is_final = false) (hio : st.interimOf ev.speaker = some nid) :
    handleTranscript st ev =
      { container := st.container.map
          (fun n => if n.id = nid then { n with text := ev.text } else n),
        interimOf := st.interimOf,
        nextId := st.nextId } := by
  unfold handleTranscript
  rw [if_neg (by simp [hf]), hio]

theorem handleTranscript_partial_none (st : TState) (ev : TEvent)
    (hf : ev.is_final = false) (hio : st.interimOf ev.speaker = none) :
    handleTranscript st ev =
      { container := st.container ++
          [{ id := st.nextId, isFinal := false,
             speaker := ev.speaker, text := ev.text }],
        interimOf := fun sp => if sp = ev.speaker then some st.nextId
          else st.interimOf sp,
        nextId := st.nextId + 1 } := by
  unfold handleTranscript
  rw [if_neg (by simp [hf]), hio]

theorem nodup_map_append_fresh (C : List TNode) (node : TNode)
    (hnd : (C.map (fun n => n.id)).Nodup)
    (hfresh : ∀ n ∈ C, n.id < node.id) :
    ((C ++ [node]).map (fun n => n.id)).Nodup := by
  rw [List.map_append, List.nodup_append]
  refine ⟨hnd, by simp, ?_⟩
  intro x hx hx2
  obtain ⟨n, hn, hid⟩ := List.mem_map.mp hx
  have hxeq : x = node.id := by simpa using hx2
  rw [hxeq] at hid
  exact (Nat.ne_of_lt (hfresh n hn)) hid

theorem TInv_step (st : TState) (ev : TEvent) (h : TInv st) :
    TInv (handleTranscript st ev) := by
  obtain ⟨hnd, hlt, hsome, hint⟩ := h
  unfold TInv
  cases hf : ev.is_final with
  | true =>
    cases hio : st.interimOf ev.speaker with
    | none =>
      rw [handleTranscript_final_none st ev hf hio]
      refine ⟨?_, ?_, ?_, ?_⟩
      · exact nodup_map_append_fresh _ _ hnd (fun n hn => hlt n hn)
      · intro n hn
        rcases List.mem_append.mp hn with hn | hn
        · exact Nat.lt_succ_of_lt (hlt n hn)
        · have hne : n = ⟨st.nextId, true, ev.speaker, ev.text⟩ := by
            simpa using hn
          rw [hne]; exact Nat.lt_succ_self _
      · intro sp nid2 hsp
        obtain ⟨n, hnC, hrest⟩ := hsome sp nid2 hsp
        exact ⟨n, List.mem_append_left _ hnC, hrest⟩
      · intro n hn hnfin
        rcases List.mem_append.mp hn with hn | hn
        · exact hint n hn hnfin
        · have hne : n = ⟨st.nextId, true, ev.speaker, ev.text⟩ := by
            simpa using hn
          rw [hne] at hnfin; simp at hnfin
    | some nid =>
      rw [handleTranscript_final_some st ev nid hf hio]
      obtain ⟨m, hmC, hmid, hmfin, hmsp⟩ := hsome ev.speaker nid hio
      refine ⟨?_, ?_, ?_, ?_⟩
      · apply nodup_map_append_fresh
        · exact List.Nodup.sublist ((List.filter_sublist _).map _) hnd
        · intro n hn
          exact hlt n (List.mem_of_mem_filter hn)
      · intro n hn
        rcases List.mem_append.mp hn with hn | hn
        · exact Nat.lt_succ_of_lt (hlt n (List.mem_of_mem_filter hn))
        · have hne : n = ⟨st.nextId, true, ev.speaker, ev.text⟩ := by
            simpa using hn
          rw [hne]; exact Nat.lt_succ_self _
      · intro sp nid2 hsp
        by_cases hspev : sp = ev.speaker
        · rw [hspev] at hsp; simp at hsp
        · have hsp2 : st.interimOf sp = some nid2 := by
            simpa [hspev] using hsp
          obtain ⟨n, hnC, hnid, hnfin, hnsp⟩ := hsome sp nid2 hsp2
          refine ⟨n, List.mem_append_left _ ?_, hnid, hnfin, hnsp⟩
          rw [List.mem_filter]
          refine ⟨hnC, ?_⟩
          have hneq : n.id ≠ nid := by
            intro hc
            have hnm : n = m :=
              List.inj_on_of_nodup_map hnd hnC hmC (by rw [hc, hmid])
            apply hspev
            rw [← hnsp, hnm, hmsp]
          simpa using hneq
      · intro n hn hnfin
        rcases List.mem_append.mp hn with hn | hn
        · have hnC := List.mem_of_mem_filter hn
          have hneq : n.id ≠ nid := by
            have hp := List.of_mem_filter hn
            simpa using hp
          have hspne : n.speaker ≠ ev.speaker := by
            intro hcontra
            have h1 := hint n hnC hnfin
            rw [hcontra, hio] at h1
            exact hneq (by injection h1 with h2; exact h2.symm)
          show (if n.speaker = ev.speaker then none
            else st.interimOf n.speaker) = some n.id
          rw [if_neg hspne]
          exact hint n hnC hnfin
        · have hne : n = ⟨st.nextId, true, ev.speaker, ev.text⟩ := by
            simpa using hn
          rw [hne] at hnfin; simp at hnfin
  | false =>
    cases hio : st.interimOf ev.speaker with
    | none =>
      rw [handleTranscript_partial_none st ev hf hio]
      refine ⟨?_, ?_, ?_, ?_⟩
      · exact nodup_map_append_fresh _ _ hnd (fun n hn => hlt n hn)
      · intro n hn
        rcases List.mem_append.mp hn with hn | hn
        · exact Nat.lt_succ_of_lt (hlt n hn)
        · have hne : n = ⟨st.nextId, false, ev.speaker, ev.text⟩ := by
            simpa using hn
          rw [hne]; exact Nat.lt_succ_self _
      · intro sp nid2 hsp
        by_cases hspev : sp = ev.speaker
        · have hnid2 : nid2 = st.nextId := by
            rw [hspev] at hsp; simpa using hsp.symm
          refine ⟨⟨st.nextId, false, ev.speaker, ev.text⟩,
            List.mem_append_right _ (by simp), by rw [hnid2], rfl, ?_⟩
          rw [hspev]
        · have hsp2 : st.interimOf sp = some nid2 := by
            simpa [hspev] using hsp
          obtain ⟨n, hnC, hrest⟩ := hsome sp nid2 hsp2
          exact ⟨n, List.mem_append_left _ hnC, hrest⟩
      · intro n hn hnfin
        rcases List.mem_append.mp hn with hn | hn
        · have hspne : n.speaker ≠ ev.speaker := by
            intro hcontra
            have h1 := hint n hn hnfin
            rw [hcontra, hio] at h1
            exact Option.noConfusion h1
          show (if n.speaker = ev.speaker then some st.nextId
            else st.interimOf n.speaker) = some n.id
          rw [if_neg hspne]
          exact hint n hn hnfin
        · have hne : n = ⟨st.nextId, false, ev.speaker, ev.text⟩ := by
            simpa using hn
          show (if n.speaker = ev.speaker then some st.nextId
            else st.interimOf n.speaker) = some n.id
          rw [hne]
          simp
    | some nid =>
      rw [handleTranscript_partial_some st ev nid hf hio]
      have hfid : ∀ n : TNode,
          ((fun n => if n.id = nid then { n with text := ev.text } else n) n).id
            = n.id := by
        intro n; by_cases hc : n.id = nid <;> simp [hc]
      have hffin : ∀ n : TNode,
          ((fun n => if n.id = nid then { n with text := ev.text } else n) n).isFinal
            = n.isFinal := by
        intro n; by_cases hc : n.id = nid <;> simp [hc]
      have hfsp : ∀ n : TNode,
          ((fun n => if n.id = nid then { n with text := ev.text } else n) n).speaker
            = n.speaker := by
        intro n; by_cases hc : n.id = nid <;> simp [hc]
      refine ⟨?_, ?_, ?_, ?_⟩
      · rw [List.map_map]
        have heq : st.container.map
            ((fun n : TNode => n.id) ∘
              (fun n => if n.id = nid then { n with text := ev.text } else n))
              = st.container.map (fun n => n.id) :=
          List.map_congr_left (fun a _ => hfid a)
        rw [heq]; exact hnd
      · intro n hn
        obtain ⟨x, hx, hfx⟩ := List.mem_map.mp hn
        rw [← hfx, hfid x]
        exact hlt x hx
      · intro sp nid2 hsp
        obtain ⟨n, hnC, hnid, hnfin, hnsp⟩ := hsome sp nid2 hsp
        refine ⟨_, List.mem_map_of_mem _ hnC, ?_, ?_, ?_⟩
        · rw [hfid n]; exact hnid
        · rw [hffin n]; exact hnfin
        · rw [hfsp n]; exact hnsp
      · intro n hn hnfin
        obtain ⟨x, hx, hfx⟩ := List.mem_map.mp hn
        rw [← hfx] at hnfin ⊢
        rw [hffin x] at hnfin
        rw [hfsp x, hfid x]
        exact hint x hx hnfin

theorem finalLines_step (st : TState) (ev : TEvent) (h : TInv st) :
    finalLines (handleTranscript st ev) =
      finalLines st ++
        (if ev.is_final then [(ev.speaker, ev.text)] else []) := by
  obtain ⟨hnd, hlt, hsome, hint⟩ := h
  cases hf : ev.is_final with
  | true =>
    cases hio : st.interimOf ev.speaker with
    | none =>
      rw [handleTranscript_final_none st ev hf hio]
      unfold finalLines
      simp only [List.filter_append, List.map_append]
      congr 1
    | some nid =>
      rw [handleTranscript_final_some st ev nid hf hio]
      obtain ⟨m, hmC, hmid, hmfin, hmsp⟩ := hsome ev.speaker nid hio
      unfold finalLines
      simp only [List.filter_append, List.map_append]
      congr 1
      rw [List.filter_filter]
      have hcong : List.filter
          (fun n => n.isFinal && decide ¬n.id = nid) st.container
          = List.filter (fun n => n.isFinal) st.container := by
        apply List.filter_congr
        intro x hx
        cases hxf : x.isFinal with
        | false => simp
        | true =>
          have hxid : x.id ≠ nid := by
            intro hc
            have hxm : x = m :=
              List.inj_on_of_nodup_map hnd hx hmC (by rw [hc, hmid])
            rw [hxm, hmfin] at hxf
            simp at hxf
          simp [hxid]
      rw [hcong]
  | false =>
    cases hio : st.interimOf ev.speaker with
    | none =>
      rw [handleTranscript_partial_none st ev hf hio]
      unfold finalLines
      simp only [List.filter_append, List.map_append]
      simp
    | some nid =>
      rw [handleTranscript_partial_some st ev nid hf hio]
      obtain ⟨m, hmC, hmid, hmfin, hmsp⟩ := hsome ev.speaker nid hio
      unfold finalLines
      simp only [List.append_nil, if_neg (by simp : ¬(false = true))]
      rw [List.filter_map]
      have hcong : List.filter
          ((fun n : TNode => n.isFinal) ∘
            (fun n => if n.id = nid then { n with text := ev.text } else n))
          st.container
          = List.filter (fun n => n.isFinal) st.container := by
        apply List.filter_congr
        intro x _
        by_cases hc : x.id = nid <;> simp [hc]
      rw [hcong, List.map_map]
      apply List.map_congr_left
      intro x hx
      have hxC := List.mem_of_mem_filter hx
      have hxf : x.isFinal = true := by
        have := List.of_mem_filter hx
        simpa using this
      have hxid : x.id ≠ nid := by
        intro hc
        have hxm : x = m :=
          List.inj_on_of_nodup_map hnd hxC hmC (by rw [hc, hmid])
        rw [hxm, hmfin] at hxf
        simp at hxf
      simp [hxid]

theorem transcriptRun_TInv (evts : List TEvent) :
    ∀ st, TInv st → TInv (transcriptRun st evts) := by
  induction evts with
  | nil => intro st h; exact h
  | cons e t ih =>
    intro st h
    have hrun : transcriptRun st (e :: t)
        = transcriptRun (handleTranscript st e) t := by
      simp [transcriptRun]
    rw [hrun]
    exact ih _ (TInv_step st e h)

theorem transcriptRun_finalLines (evts : List TEvent) :
    ∀ st, TInv st →
      finalLines (transcriptRun st evts)
        = finalLines st ++ committedLines evts := by
  induction evts with
  | nil => intro st _; simp [transcriptRun, committedLines]
  | cons e t ih =>
    intro st hinv
    have hrun : transcriptRun st (e :: t)
        = transcriptRun (handleTranscript st e) t := by
      simp [transcriptRun]
    rw [hrun, ih _ (TInv_step st e hinv), finalLines_step st e hinv]
    cases hf : e.is_final with
    | true => simp [committedLines, List.filterMap_cons, hf]
    | false => simp [committedLines, List.filterMap_cons, hf]

/-- Claim C2: for every sequence of transcript events delivered to
handleTranscript, the final lines shown in the transcript container are
exactly the final events, in arrival (commit) order, each carrying the
speaker label of its event — no final line is lost, duplicated or
reordered by later events (including later interim updates and removals
for any speaker). -/
theorem c2_final_lines_commit_order (evts : List TEvent) :
    finalLines (transcriptRun transcriptInit evts) = committedLines evts := by
  have h := transcriptRun_finalLines evts transcriptInit TInv_init
  simpa [finalLines, transcriptInit] using h

theorem interim_filter_eq_singleton (st : TState) (h : TInv st) (sp : String)
    (nid : ℕ) (hio : st.interimOf sp = some nid) (m : TNode)
    (hmC : m ∈ st.container) (hmid : m.id = nid) (hmfin : m.isFinal = false)
    (hmsp : m.speaker = sp) :
    st.container.filter (fun n => !n.isFinal && n.speaker == sp) = [m] := by
  obtain ⟨hnd, hlt, hsome, hint⟩ := h
  have hagree : ∀ x ∈ st.container,
      (!x.isFinal && x.speaker == sp) = (x == m) := by
    intro x hx
    by_cases hxm : x = m
    · simp [hxm, hmfin, hmsp]
    · have hne : (x == m) = false := by simp [hxm]
      rw [hne]
      cases hxf : x.isFinal with
      | true => simp
      | false =>
        cases hxs : (x.speaker == sp) with
        | false => simp [hxs]
        | true =>
          exfalso
          have hxsp : x.speaker = sp := by simpa using hxs
          have h1 := hint x hx hxf
          rw [hxsp, hio] at h1
          have hxid : x.id = nid := by
            injection h1 with h2; exact h2.symm
          exact hxm (List.inj_on_of_nodup_map hnd hx hmC (by rw [hxid, hmid]))
  rw [List.filter_congr hagree, List.filter_beq,
    List.count_eq_one_of_mem (List.Nodup.of_map _ hnd) hmC]
  rfl

theorem interimCount_le_one (st : TState) (h : TInv st) (sp : String) :
    interimCount st sp ≤ 1 := by
  obtain ⟨hnd, hlt, hsome, hint⟩ := h
  unfold interimCount
  cases hio : st.interimOf sp with
  | none =>
    have hzero : st.container.countP (fun n => !n.isFinal && n.speaker == sp)
        = 0 := by
      rw [List.countP_eq_zero]
      intro n hn hpred
      have hps : n.isFinal = false ∧ n.speaker = sp := by
        simpa [Bool.and_eq_true, Bool.not_eq_true'] using hpred
      have h1 := hint n hn hps.1
      rw [hps.2, hio] at h1
      exact Option.noConfusion h1
    rw [hzero]
    exact Nat.zero_le 1
  | some nid =>
    obtain ⟨m, hmC, hmid, hmfin, hmsp⟩ := hsome sp nid hio
    rw [List.countP_eq_length_filter,
      interim_filter_eq_singleton st ⟨hnd, hlt, hsome, hint⟩ sp nid hio
        m hmC hmid hmfin hmsp]
    exact Nat.le_refl 1

theorem final_clears_interim (st : TState) (h : TInv st) (sp tx : String) :
    interimCount (handleTranscript st
        { speaker := sp, text := tx, is_final := true }) sp = 0 ∧
    (handleTranscript st
        { speaker := sp, text := tx, is_final := true }).container.getLast?
      = some { id := st.nextId, isFinal := true, speaker := sp, text := tx } := by
  obtain ⟨hnd, hlt, hsome, hint⟩ := h
  cases hio : st.interimOf sp with
  | none =>
    rw [handleTranscript_final_none st
      { speaker := sp, text := tx, is_final := true } rfl hio]
    constructor
    · unfold interimCount
      rw [List.countP_append]
      have h1 : st.container.countP (fun n => !n.isFinal && n.speaker == sp)
          = 0 := by
        rw [List.countP_eq_zero]
        intro n hn hpred
        have hps : n.isFinal = false ∧ n.speaker = sp := by
          simpa [Bool.and_eq_true, Bool.not_eq_true'] using hpred
        have hx := hint n hn hps.1
        rw [hps.2, hio] at hx
        exact Option.noConfusion hx
      rw [h1]
      simp
    · exact List.getLast?_concat _
  | some nid =>
    rw [handleTranscript_final_some st
      { speaker := sp, text := tx, is_final := true } nid rfl hio]
    obtain ⟨m, hmC, hmid, hmfin, hmsp⟩ := hsome sp nid hio
    constructor
    · unfold interimCount
      rw [List.countP_append]
      have h1 : (st.container.filter (fun n => n.id ≠ nid)).countP
          (fun n => !n.isFinal && n.speaker == sp) = 0 := by
        rw [List.countP_eq_zero]
        intro n hn hpred
        have hps : n.isFinal = false ∧ n.speaker = sp := by
          simpa [Bool.and_eq_true, Bool.not_eq_true'] using hpred
        have hnC := List.mem_of_mem_filter hn
        have hneq : n.id ≠ nid := by
          have hp := List.of_mem_filter hn
          simpa using hp
        have hx := hint n hnC hps.1
        rw [hps.2, hio] at hx
        exact hneq (by injection hx with h2; exact h2.symm)
      rw [h1]
      simp
    · exact List.getLast?_concat _

theorem partial_one_interim (st : TState) (h : TInv st) (sp tx : String) :
    interimTexts (handleTranscript st
        { speaker := sp, text := tx, is_final := false }) sp = [tx] ∧
    lineSkeleton (handleTranscript st
        { speaker := sp, text := tx, is_final := false })
      = (if (st.interimOf sp).isSome then lineSkeleton st
         else lineSkeleton st ++ [(st.nextId, false, sp)]) := by
  obtain ⟨hnd, hlt, hsome, hint⟩ := h
  cases hio : st.interimOf sp with
  | none =>
    rw [handleTranscript_partial_none st
      { speaker := sp, text := tx, is_final := false } rfl hio]
    constructor
    · unfold interimTexts
      rw [List.filter_append]
      have h1 : st.container.filter (fun n => !n.isFinal && n.speaker == sp)
          = [] := by
        rw [List.filter_eq_nil_iff]
        intro n hn hpred
        have hps : n.isFinal = false ∧ n.speaker = sp := by
          simpa [Bool.and_eq_true, Bool.not_eq_true'] using hpred
        have hx := hint n hn hps.1
        rw [hps.2, hio] at hx
        exact Option.noConfusion hx
      rw [h1]
      simp
    · simp [lineSkeleton]
  | some nid =>
    rw [handleTranscript_partial_some st
      { speaker := sp, text := tx, is_final := false } nid rfl hio]
    obtain ⟨m, hmC, hmid, hmfin, hmsp⟩ := hsome sp nid hio
    have hsingle := interim_filter_eq_singleton st ⟨hnd, hlt, hsome, hint⟩
      sp nid hio m hmC hmid hmfin hmsp
    constructor
    · unfold interimTexts
      rw [List.filter_map]
      have hcong : List.filter
          ((fun n : TNode => !n.isFinal && n.speaker == sp) ∘
            (fun n => if n.id = nid then { n with text := tx } else n))
          st.container
          = st.container.filter (fun n => !n.isFinal && n.speaker == sp) := by
        apply List.filter_congr
        intro x _
        by_cases hc : x.id = nid <;> simp [hc]
      rw [hcong, hsingle, List.map_map]
      simp [hmid]
    · simp only [lineSkeleton, List.map_map, Option.isSome_some, if_true]
      apply List.map_congr_left
      intro x _
      by_cases hc : x.id = nid <;> simp [hc]

/-- Claim C3: at any reachable transcript state there is at most one interim
line per speaker; a final event for a speaker clears that speaker's
interim slot (zero interim lines remain for it) before appending the
committed line, which becomes the last line of the container; and a
partial event leaves exactly one interim line for the speaker carrying the
new text — replacing the existing one in place when the speaker already
has one (the id/kind/speaker skeleton of the display is unchanged) and
appending a single fresh interim line otherwise. -/
theorem c3_single_interim_per_speaker (evts : List TEvent) (sp tx : String) :
    interimCount (transcriptRun transcriptInit evts) sp ≤ 1 ∧
    interimCount (handleTranscript (transcriptRun transcriptInit evts)
        { speaker := sp, text := tx, is_final := true }) sp = 0 ∧
    (handleTranscript (transcriptRun transcriptInit evts)
        { speaker := sp, text := tx, is_final := true }).container.getLast?
      = some { id := (transcriptRun transcriptInit evts).nextId,
               isFinal := true, speaker := sp, text := tx } ∧
    interimTexts (handleTranscript (transcriptRun transcriptInit evts)
        { speaker := sp, text := tx, is_final := false }) sp = [tx] ∧
    lineSkeleton (handleTranscript (transcriptRun transcriptInit evts)
        { speaker := sp, text := tx, is_final := false })
      = (if ((transcriptRun transcriptInit evts).interimOf sp).isSome then
          lineSkeleton (transcriptRun transcriptInit evts)
        else lineSkeleton (transcriptRun transcriptInit evts) ++
          [((transcriptRun transcriptInit evts).nextId, false, sp)]) := by
  have hinv := transcriptRun_TInv evts transcriptInit TInv_init
  exact ⟨interimCount_le_one _ hinv sp,
    (final_clears_interim _ hinv sp tx).1,
    (final_clears_interim _ hinv sp tx).2,
    (partial_one_interim _ hinv sp tx).1,
    (partial_one_interim _ hinv sp tx).2⟩

end Wingman
